import Mathlib

/-!
# Verification development for `go_blog_api`

A shallow embedding of the article listing handler
(`internals/handlers/article_handler.go`), the article model
(`internals/models/article.go`) and the response helpers and logging wrapper
(`internals/middleware/middleware.go`).

Go strings are modelled as lists of characters (`GoString`).  A character
`c` with `c.toNat < 128` stands for the byte `c.toNat`; a character outside
ASCII stands for its multi-byte UTF-8 encoding, all of whose bytes are
`≥ 0x80`; strings are taken to be valid UTF-8.  Machine integers are
`Nat`/`Int` with explicit wrap-around.
-/

set_option autoImplicit false

namespace GoBlog

/-- Go `string`, as the list of its characters. -/
abbrev GoString := List Char

/-! ## `strconv.ParseInt` (Go standard library), at base 10 and bit size 64 -/

namespace strconv

/-- The two error kinds of `strconv.NumError` (`ErrSyntax`, `ErrRange`). -/
inductive NumError where
  | ErrSyntax
  | ErrRange
  deriving DecidableEq, Repr

/-- Number of values of a `uint64`. -/
def uint64Size : Nat := 18446744073709551616

/-- Go `maxUint64 = 1<<64 - 1`. -/
def maxUint64 : Nat := uint64Size - 1

/-- Go `lower(c) = c | ('x' - 'X')` on bytes. -/
def lower (c : Nat) : Nat := c ||| 0x20

/-- The `switch` of `ParseUint` that maps a byte to its digit value:
`'0'..'9'` to `c - '0'`, a letter to `lower(c) - 'a' + 10`, anything else is a
syntax error (`none`).  The underscore case needs `base == 0` and is absent. -/
def digitOfByte (c : Char) : Option Nat :=
  if 48 ≤ c.toNat ∧ c.toNat ≤ 57 then some (c.toNat - 48)
  else if 97 ≤ lower c.toNat ∧ lower c.toNat ≤ 122 then some (lower c.toNat - 97 + 10)
  else none

/-- Go `cutoff = maxUint64/10 + 1`: the smallest number with
`cutoff * 10 > maxUint64`. -/
def cutoff10 : Nat := maxUint64 / 10 + 1

/-- Go `maxVal = uint64(1)<<uint(bitSize) - 1` at `bitSize = 64`: the shift
gives `0` and the subtraction wraps to `maxUint64`. -/
def maxVal64 : Nat := maxUint64

/-- The `for _, c := range []byte(s)` loop of `ParseUint` with accumulator `n`
(base 10, bit size 64).  Returns the pair `(value, err)`. -/
def parseUintLoop : GoString → Nat → Nat × Option NumError
  | [], n => (n, none)
  | c :: cs, n =>
    match digitOfByte c with
    | none => (0, some NumError.ErrSyntax)
    | some d =>
      if d ≥ 10 then (0, some NumError.ErrSyntax)
      else if n ≥ cutoff10 then (maxVal64, some NumError.ErrRange)
      else
        let n10 := (n * 10) % uint64Size
        let n1 := (n10 + d) % uint64Size
        if n1 < n10 ∨ n1 > maxVal64 then (maxVal64, some NumError.ErrRange)
        else parseUintLoop cs n1

/-- Go `strconv.ParseUint(s, 10, 64)`. -/
def ParseUint (s : GoString) : Nat × Option NumError :=
  if s = [] then (0, some NumError.ErrSyntax) else parseUintLoop s 0

/-- Go conversion `int64(u)` of a `uint64` (two's complement). -/
def toInt64 (u : Nat) : Int :=
  if u % uint64Size < 9223372036854775808 then (u % uint64Size : Nat)
  else ((u % uint64Size : Nat) : Int) - 18446744073709551616

/-- Go unary minus on `int64`, wrapping at `-2^63`. -/
def negInt64 (n : Int) : Int :=
  if n = -9223372036854775808 then n else -n

/-- Go `strconv.ParseInt(s, 10, 64)`: the pair `(i, err)`. -/
def ParseInt (s : GoString) : Int × Option NumError :=
  match s with
  | [] => (0, some NumError.ErrSyntax)
  | c :: rest =>
    let neg : Bool := !(c = '+') && c = '-'
    let s1 : GoString := if c = '+' then rest else if c = '-' then rest else c :: rest
    let r := ParseUint s1
    if r.2 = some NumError.ErrSyntax then (0, r.2)
    else
      let cutoff : Nat := 9223372036854775808
      if !neg && r.1 ≥ cutoff then (((cutoff - 1 : Nat) : Int), some NumError.ErrRange)
      else if neg && r.1 > cutoff then (-(cutoff : Int), some NumError.ErrRange)
      else
        let n := toInt64 r.1
        (if neg then negInt64 n else n, none)

end strconv

/-! ## Spec-side reading of "a base-10 representation of an integer" -/

/-- Value of a decimal digit character, `none` for any other character. -/
def decimalDigit? (c : Char) : Option Nat :=
  if 48 ≤ c.toNat ∧ c.toNat ≤ 57 then some (c.toNat - 48) else none

/-- The digits of a string made of decimal digits only, most significant
first; `none` when some character is not a decimal digit. -/
def decimalDigits? : GoString → Option (List Nat)
  | [] => some []
  | c :: cs =>
    match decimalDigit? c, decimalDigits? cs with
    | some d, some ds => some (d :: ds)
    | _, _ => none

/-- The natural number written by a non-empty string of decimal digits, by
positional notation (`Nat.ofDigits` takes the least significant digit first). -/
def decimalNat? (s : GoString) : Option Nat :=
  match s with
  | [] => none
  | _ :: _ => (decimalDigits? s).map (fun ds => Nat.ofDigits 10 ds.reverse)

/-- A string is a base-10 representation of the integer `n` when it is an
optional sign `+` or `-` followed by one or more decimal digits whose
positional value is `|n|`; `base10Value s` is that `n`, and `none` when `s`
has no such form. -/
def base10Value (s : GoString) : Option Int :=
  match s with
  | [] => none
  | c :: rest =>
    if c = '+' then (decimalNat? rest).map (fun (n : Nat) => (n : Int))
    else if c = '-' then (decimalNat? rest).map (fun (n : Nat) => -(n : Int))
    else (decimalNat? (c :: rest)).map (fun (n : Nat) => (n : Int))

/-! ## `strings.Split` and `strings.TrimSpace` (Go standard library) -/

namespace unicode

/-- Go `unicode.IsSpace`: in Latin-1 the characters `\t \n \v \f \r`, space,
U+0085 and U+00A0; above Latin-1 the `White_Space` table. -/
def IsSpace (r : Char) : Bool :=
  if r.toNat ≤ 0xFF then
    decide (r.toNat = 9 ∨ r.toNat = 10 ∨ r.toNat = 11 ∨ r.toNat = 12 ∨ r.toNat = 13
      ∨ r.toNat = 32 ∨ r.toNat = 0x85 ∨ r.toNat = 0xA0)
  else
    decide (r.toNat = 0x1680 ∨ (0x2000 ≤ r.toNat ∧ r.toNat ≤ 0x200a) ∨ r.toNat = 0x2028
      ∨ r.toNat = 0x2029 ∨ r.toNat = 0x202f ∨ r.toNat = 0x205f ∨ r.toNat = 0x3000)

end unicode

namespace strings

/-- Go `strings.Split(s, ",")`: the segments of `s` between commas, in order;
a string without a comma is its own single segment. -/
def Split : GoString → List GoString
  | [] => [[]]
  | c :: cs =>
    if c = ',' then [] :: Split cs
    else
      match Split cs with
      | [] => [[c]]
      | seg :: segs => (c :: seg) :: segs

/-- Go `strings.TrimSpace(s)`: `s` without its leading and trailing white
space, as defined by Unicode. -/
def TrimSpace (s : GoString) : GoString :=
  (s.dropWhile unicode.IsSpace).rdropWhile unicode.IsSpace

end strings

/-- Spec-side reading of "surrounding whitespace trimmed": `t` is `seg`
without a leading and a trailing run of white space, and `t` itself neither
starts nor ends with white space. -/
def IsTrimOf (seg t : GoString) : Prop :=
  ∃ l r : GoString, seg = l ++ t ++ r ∧
    (∀ c ∈ l, unicode.IsSpace c = true) ∧ (∀ c ∈ r, unicode.IsSpace c = true) ∧
    (∀ c, t.head? = some c → unicode.IsSpace c = false) ∧
    (∀ c, t.getLast? = some c → unicode.IsSpace c = false)

/-! ## `net/http` and `encoding/json`, as far as the handlers use them -/

/-- A JSON value, as `encoding/json` writes it. -/
inductive JSON where
  | null
  | bool (b : Bool)
  | num (n : Int)
  | str (s : GoString)
  | arr (xs : List JSON)
  | obj (fields : List (String × JSON))

/-- Keys of a JSON object, in the order they are written. -/
def JSON.keys : JSON → List String
  | JSON.obj fields => fields.map Prod.fst
  | _ => []

/-- Member of a JSON object by key. -/
def JSON.member (k : String) : JSON → Option JSON
  | JSON.obj fields => fields.lookup k
  | _ => none

/-- What an `http.ResponseWriter` has received: the status code of its header
(`none` while no header is written) and the values written to the body. -/
structure ResponseRecorder where
  status : Option Int
  body : List JSON

/-- Method `WriteHeader(statusCode)` of the underlying `http.ResponseWriter`
(`net/http`).  Once the header is written a further call is superfluous and
ignored.  Otherwise `checkWriteHeaderCode` panics with `invalid WriteHeader
code` for a code below 100 or above 999, before anything is recorded: the result
is `none` and the writer is left as it was.  A valid code becomes the status. -/
def ResponseRecorder.WriteHeader (w : ResponseRecorder) (statusCode : Int) :
    Option ResponseRecorder :=
  match w.status with
  | some _ => some w
  | none =>
    if statusCode < 100 ∨ statusCode > 999 then none
    else some { w with status := some statusCode }

/-- Method `Write` of the underlying `http.ResponseWriter` with one encoded
value: the first write sends the header with `http.StatusOK` when none was
written, then the value goes to the body. -/
def ResponseRecorder.Write (w : ResponseRecorder) (v : JSON) : ResponseRecorder :=
  { status := some (w.status.getD 200), body := w.body ++ [v] }

/-- Method `json.NewEncoder(w).Encode(v)`.  The argument is the result of
marshalling `v`: `none` when `encoding/json` cannot marshal it (a channel, a
function, a NaN or infinite float), in which case `Encode` returns the error
before any write and `w` is left as it was; otherwise the encoding is written. -/
def ResponseRecorder.Encode (w : ResponseRecorder) (v : Option JSON) : ResponseRecorder :=
  match v with
  | none => w
  | some j => w.Write j

/-- Go `url.Values` (`map[string][]string`): an absent key has no values. -/
abbrev Values := String → List GoString

/-- Go `Values.Get`: the first value of the key, `""` when there is none. -/
def Values.Get (v : Values) (key : String) : GoString :=
  match v key with
  | [] => []
  | x :: _ => x

/-! ## `internals/handlers/article_handler.go` -/

namespace bson

/-- A BSON value of a filter document. -/
inductive Value where
  | boolean (b : Bool)
  | string (s : GoString)
  | array (xs : List Value)
  | document (fields : List (String × Value))

/-- Go `bson.M` (`map[string]interface{}`), as the list of its entries. -/
abbrev M := List (String × Value)

end bson

/-- The `for i, tag := range tagList { tagList[i] = strings.TrimSpace(tag) }`
loop of `GetArticles`: `n` iterations are left, the next index is `i`. -/
def trimRange : Nat → Nat → List GoString → List GoString
  | 0, _, tagList => tagList
  | n + 1, i, tagList =>
    trimRange n (i + 1) (tagList.set i (strings.TrimSpace (tagList.getD i [])))

/-- The local variables of `GetArticles` when its body ends, and the response
writer it was given.  `tagList` is declared only inside `if tags != ""`. -/
structure GetArticlesState where
  w : ResponseRecorder
  tags : GoString
  author : GoString
  limitStr : GoString
  pageStr : GoString
  limit : Int
  page : Int
  filter : bson.M
  tagList : Option (List GoString)

/-- The parse of `limitStr`: `limit := int64(10)`, replaced by `l` when
`limitStr != ""` and `strconv.ParseInt` gives `l` with `err == nil && l > 0`. -/
def parseLimit (limitStr : GoString) : Int :=
  if limitStr ≠ [] then
    let r := strconv.ParseInt limitStr
    if r.2 = none ∧ r.1 > 0 then r.1 else 10
  else 10

/-- The parse of `pageStr`: `page := int64(1)`, replaced by `p` when
`pageStr != ""` and `strconv.ParseInt` gives `p` with `err == nil && p > 0`. -/
def parsePage (pageStr : GoString) : Int :=
  if pageStr ≠ [] then
    let r := strconv.ParseInt pageStr
    if r.2 = none ∧ r.1 > 0 then r.1 else 1
  else 1

/-- Method `ArticleHandler.GetArticles(w, r)`, with `query = r.URL.Query()`.
The body reads the four parameters, parses `limit` and `page`, builds
`filter` with the one entry `isPublished: true`, and trims the tags in place;
it writes nothing to `w`.

The source file is not accepted by the Go compiler as it stands: line 63 reads
`filter := bson.M("isPublished": true)`, with parentheses where a composite
literal takes braces, and the locals `ctx`, `author`, `limit`, `page` and
`filter` are declared and not used.  Line 63 is read here as the map literal
with the single entry `isPublished: true`, its only possible reading, and the
unused locals are kept as fields of the final state. -/
def GetArticles (w : ResponseRecorder) (query : Values) : GetArticlesState :=
  let tags := query.Get "tags"
  let author := query.Get "author"
  let limitStr := query.Get "limit"
  let pageStr := query.Get "page"
  let limit := parseLimit limitStr
  let page := parsePage pageStr
  let filter : bson.M := [("isPublished", bson.Value.boolean true)]
  let tagList : Option (List GoString) :=
    if tags ≠ [] then
      let tagList := strings.Split tags
      some (trimRange tagList.length 0 tagList)
    else none
  { w := w, tags := tags, author := author, limitStr := limitStr, pageStr := pageStr,
    limit := limit, page := page, filter := filter, tagList := tagList }

/-! ## `internals/models/article.go` -/

namespace time

/-- Go `time.Time`, as an instant in nanoseconds. -/
structure Time where
  nanos : Int
  deriving DecidableEq

/-- Go `t.Before(u)`. -/
def Time.Before (t u : Time) : Bool := decide (t.nanos < u.nanos)

end time

namespace primitive

/-- Go `primitive.ObjectID`: twelve bytes. -/
structure ObjectID where
  bytes : List Nat
  deriving DecidableEq

end primitive

/-- Go `models.Article`. -/
structure Article where
  ID : primitive.ObjectID
  Title : GoString
  Content : GoString
  Author : GoString
  Tags : List GoString
  PublishedDate : time.Time
  IsPublished : Bool
  CreatedAT : time.Time
  UpdatedAT : time.Time
  deriving DecidableEq

/-- Go `models.CreateArticleRequest`. -/
structure CreateArticleRequest where
  Title : GoString
  Content : GoString
  Author : GoString
  Tags : List GoString
  deriving DecidableEq

/-- Go `models.PaginationInfo`. -/
structure PaginationInfo where
  CurrentPage : Int
  TotalPages : Int
  TotalArticles : Int
  HasNextPage : Bool
  HasPrevPage : Bool
  deriving DecidableEq

/-- Go `models.NewArticle(req)`; `now` is the reading of `time.Now()` and `id`
the value of `primitive.NewObjectID()`. -/
def NewArticle (req : CreateArticleRequest) (now : time.Time) (id : primitive.ObjectID) :
    Article :=
  { ID := id
    Title := req.Title
    Content := req.Content
    Author := req.Author
    Tags := req.Tags
    PublishedDate := now
    IsPublished := true
    CreatedAT := now
    UpdatedAT := now }

/-- Modelled from the spec: the computation of the `PaginationInfo` of a
listing, which `GetArticles` does not contain (its body ends after the tags are
trimmed; `models.PaginationInfo` is declared and never built).  Following
sections 3 and 4.3: `totalPages = ceil(totalCount / pageSize)`,
`hasNextPage == (currentPage < totalPages)`, `hasPrevPage == (currentPage > 1)`. -/
def NewPaginationInfo (page pageSize totalCount : Int) : PaginationInfo :=
  let totalPages : Int := ⌈(totalCount : ℚ) / (pageSize : ℚ)⌉
  { CurrentPage := page
    TotalPages := totalPages
    TotalArticles := totalCount
    HasNextPage := decide (page < totalPages)
    HasPrevPage := decide (page > 1) }

/-! ## `internals/middleware/middleware.go` -/

/-- The map `response` of `ErrorResponse`, as `encoding/json` writes it (the
keys of a map are written in sorted order). -/
def errorEnvelope (message : GoString) : JSON :=
  JSON.obj [("error", JSON.str message), ("success", JSON.bool false)]

/-- The map `response` of `SuccessResponse`, as `encoding/json` writes it;
`data` is the encoding of the `data` argument. -/
def successEnvelope (message : GoString) (data : JSON) : JSON :=
  JSON.obj [("data", data), ("message", JSON.str message), ("success", JSON.bool true)]

/-- Go `middleware.ErrorResponse(w, statusCode, message)`: `w.WriteHeader`, then
`Encode` of the map, which holds a boolean and a string and so always marshals.
The result is `none` when `WriteHeader` panics; nothing is written then. -/
def ErrorResponse (w : ResponseRecorder) (statusCode : Int) (message : GoString) :
    Option ResponseRecorder :=
  (w.WriteHeader statusCode).map (fun w1 => w1.Encode (some (errorEnvelope message)))

/-- Go `middleware.SuccessResponse(w, statusCode, message, data)`; `data` is the
result of marshalling the `data` argument, `none` when `encoding/json` cannot
marshal it: the map then does not marshal either, `Encode` fails, its error is
dropped and no envelope is written.  The result is `none` when `WriteHeader`
panics. -/
def SuccessResponse (w : ResponseRecorder) (statusCode : Int) (message : GoString)
    (data : Option JSON) : Option ResponseRecorder :=
  (w.WriteHeader statusCode).map (fun w1 => w1.Encode (data.map (successEnvelope message)))

/-- Go `middleware.responseWriter`: the embedded `http.ResponseWriter` and the
field `statusCode`. -/
structure responseWriter where
  ResponseWriter : ResponseRecorder
  statusCode : Int

/-- A call a handler makes on the `http.ResponseWriter` it is given: a
`WriteHeader`, or a `Write` of one encoded value. -/
inductive WriterCall where
  | WriteHeader (statusCode : Int)
  | Write (v : JSON)

/-- A call on a `*responseWriter`.  The type declares no method of its own, so
`WriteHeader` and `Write` are the methods promoted from the embedded
`http.ResponseWriter`: they act on that writer and leave `statusCode` as it is.
The result is `none` when the call panics. -/
def responseWriter.call (rw : responseWriter) : WriterCall → Option responseWriter
  | WriterCall.WriteHeader statusCode =>
    (rw.ResponseWriter.WriteHeader statusCode).map
      (fun w1 => { rw with ResponseWriter := w1 })
  | WriterCall.Write v =>
    some { rw with ResponseWriter := rw.ResponseWriter.Write v }

/-- An `http.Handler`, as the calls its `ServeHTTP` makes on the writer, in order. -/
abbrev Handler := List WriterCall

/-- Method `next.ServeHTTP(wrapped, r)` on a `*responseWriter`: the writer when
the handler ends, and whether it ended in a panic (at its first panicking call,
the later calls are not made). -/
def Handler.ServeHTTP : Handler → responseWriter → responseWriter × Bool
  | [], wrapped => (wrapped, false)
  | call :: calls, wrapped =>
    match wrapped.call call with
    | none => (wrapped, true)
    | some wrapped1 => Handler.ServeHTTP calls wrapped1

/-- What `LoggingMiddleware` leaves behind: the underlying writer, the value of
`wrapped.statusCode` that its log line prints, and whether the handler
panicked.  `LoggingMiddleware` does not recover: a panic of the handler passes
through it and the line is not logged. -/
structure LoggedRequest where
  w : ResponseRecorder
  loggedStatus : Int
  panicked : Bool

/-- Go `middleware.LoggingMiddleware(next)` serving one request on `w`:
`wrapped := &responseWriter{ResponseWriter: w, statusCode: http.StatusOK}`, then
`next.ServeHTTP(wrapped, r)`, then the log line with `wrapped.statusCode`. -/
def LoggingMiddleware (next : Handler) (w : ResponseRecorder) : LoggedRequest :=
  let wrapped : responseWriter := { ResponseWriter := w, statusCode := 200 }
  let served := next.ServeHTTP wrapped
  { w := served.1.ResponseWriter, loggedStatus := served.1.statusCode, panicked := served.2 }

/-! ## Lemmas on `strconv.ParseInt` -/

namespace strconv

/-- The accumulator of positional notation: `n` followed by the digits `ds`. -/
def decVal (ds : List Nat) (n : Nat) : Nat := ds.foldl (fun a d => a * 10 + d) n

theorem decVal_ge (ds : List Nat) (n : Nat) : n ≤ decVal ds n := by
  induction ds generalizing n with
  | nil => simp [decVal]
  | cons d ds ih =>
    have h := ih (n * 10 + d)
    simp only [decVal, List.foldl_cons] at h ⊢
    omega

theorem decVal_eq_ofDigits (ds : List Nat) (n : Nat) :
    decVal ds n = n * 10 ^ ds.length + Nat.ofDigits 10 ds.reverse := by
  induction ds generalizing n with
  | nil => simp [decVal]
  | cons d ds ih =>
    have h := ih (n * 10 + d)
    simp only [decVal, List.foldl_cons] at h ⊢
    rw [h, List.reverse_cons, Nat.ofDigits_append, List.length_reverse, List.length_cons,
      Nat.ofDigits_singleton]
    ring

theorem digitOfByte_of_decimalDigit {c : Char} {d : Nat} (h : decimalDigit? c = some d) :
    digitOfByte c = some d ∧ d < 10 := by
  unfold decimalDigit? at h
  unfold digitOfByte
  split at h
  · rename_i hc
    rw [if_pos hc]
    simp only [Option.some.injEq] at h
    exact ⟨by rw [h], by omega⟩
  · exact absurd h (by simp)

theorem digitOfByte_of_not_decimalDigit {c : Char} (h : decimalDigit? c = none) :
    digitOfByte c = none ∨ ∃ d, digitOfByte c = some d ∧ d ≥ 10 := by
  unfold decimalDigit? at h
  unfold digitOfByte
  split at h
  · exact absurd h (by simp)
  · rename_i hc
    rw [if_neg hc]
    by_cases hl : 97 ≤ lower c.toNat ∧ lower c.toNat ≤ 122
    · rw [if_pos hl]
      exact Or.inr ⟨_, rfl, by omega⟩
    · rw [if_neg hl]
      exact Or.inl rfl

theorem parseUintLoop_range (s : GoString) (n : Nat) :
    (parseUintLoop s n).2 = some NumError.ErrRange → (parseUintLoop s n).1 = maxVal64 := by
  induction s generalizing n with
  | nil => simp [parseUintLoop]
  | cons c cs ih =>
    unfold parseUintLoop
    cases hd : digitOfByte c with
    | none => simp
    | some d =>
      simp only
      split
      · simp
      · split
        · simp
        · split
          · simp
          · exact ih _

theorem parseUintLoop_not_digits (s : GoString) (n : Nat) (h : decimalDigits? s = none) :
    (parseUintLoop s n).2 ≠ none := by
  induction s generalizing n with
  | nil => simp [decimalDigits?] at h
  | cons c cs ih =>
    unfold parseUintLoop
    cases hc : decimalDigit? c with
    | none =>
      rcases digitOfByte_of_not_decimalDigit hc with h0 | ⟨d, h0, hd⟩
      · rw [h0]; simp
      · rw [h0]; simp only; rw [if_pos hd]; simp
    | some d =>
      have hcs : decimalDigits? cs = none := by
        cases hr : decimalDigits? cs with
        | none => rfl
        | some ds => simp [decimalDigits?, hc, hr] at h
      obtain ⟨h0, hd⟩ := digitOfByte_of_decimalDigit hc
      rw [h0]
      simp only
      rw [if_neg (by omega)]
      split
      · simp
      · split
        · simp
        · exact ih _ hcs

theorem parseUintLoop_digits (s : GoString) (ds : List Nat) (n : Nat)
    (h : decimalDigits? s = some ds) (hn : n < uint64Size) :
    parseUintLoop s n =
      if decVal ds n < uint64Size then (decVal ds n, none)
      else (maxVal64, some NumError.ErrRange) := by
  induction s generalizing n ds with
  | nil =>
    simp only [decimalDigits?, Option.some.injEq] at h
    subst h
    simp [parseUintLoop, decVal, hn]
  | cons c cs ih =>
    cases hc : decimalDigit? c with
    | none => simp [decimalDigits?, hc] at h
    | some d =>
      cases hr : decimalDigits? cs with
      | none => simp [decimalDigits?, hc, hr] at h
      | some ds1 =>
        simp only [decimalDigits?, hc, hr, Option.some.injEq] at h
        subst h
        obtain ⟨h0, hd⟩ := digitOfByte_of_decimalDigit hc
        have hge := decVal_ge ds1 (n * 10 + d)
        have hstep : decVal (d :: ds1) n = decVal ds1 (n * 10 + d) := by
          simp [decVal]
        unfold parseUintLoop
        rw [h0]
        simp only
        rw [if_neg (by omega), hstep]
        simp only [uint64Size, cutoff10, maxVal64, maxUint64] at *
        by_cases hcut : n ≥ 18446744073709551615 / 10 + 1
        · rw [if_pos hcut, if_neg (by omega)]
        · rw [if_neg hcut]
          by_cases hov : n * 10 + d < 18446744073709551616
          · have e1 : n * 10 % 18446744073709551616 = n * 10 := Nat.mod_eq_of_lt (by omega)
            have e2 : (n * 10 + d) % 18446744073709551616 = n * 10 + d := Nat.mod_eq_of_lt hov
            rw [e1, e2, if_neg (by omega)]
            exact ih ds1 (n * 10 + d) hr hov
          · have e1 : n * 10 % 18446744073709551616 = n * 10 := Nat.mod_eq_of_lt (by omega)
            rw [e1, if_pos (by omega), if_neg (by omega)]

theorem ParseUint_not_decimal (s : GoString) (h : decimalNat? s = none) :
    (ParseUint s).2 ≠ none ∧
      ((ParseUint s).2 = some NumError.ErrRange → (ParseUint s).1 = maxVal64) := by
  unfold ParseUint
  cases s with
  | nil => simp
  | cons c cs =>
    rw [if_neg (by simp)]
    refine ⟨?_, parseUintLoop_range _ _⟩
    apply parseUintLoop_not_digits
    simpa [decimalNat?] using h

theorem ParseUint_decimal (s : GoString) (v : Nat) (h : decimalNat? s = some v) :
    ParseUint s =
      if v < uint64Size then (v, none) else (maxVal64, some NumError.ErrRange) := by
  unfold ParseUint
  cases s with
  | nil => simp [decimalNat?] at h
  | cons c cs =>
    rw [if_neg (by simp)]
    simp only [decimalNat?, Option.map_eq_some'] at h
    obtain ⟨ds, hds, hv⟩ := h
    rw [parseUintLoop_digits _ ds 0 hds (by simp [uint64Size]), decVal_eq_ofDigits, hv]
    simp

theorem ParseInt_not_base10 (s : GoString) (h : base10Value s = none) :
    (ParseInt s).2 ≠ none := by
  cases s with
  | nil => simp [ParseInt]
  | cons c rest =>
    have key : ∀ (s1 : GoString) (neg : Bool), decimalNat? s1 = none →
        (if (ParseUint s1).2 = some NumError.ErrSyntax then ((0 : Int), (ParseUint s1).2)
          else
            if (!neg && decide ((ParseUint s1).1 ≥ 9223372036854775808)) = true then
              (((9223372036854775808 - 1 : Nat) : Int), some NumError.ErrRange)
            else if (neg && decide ((ParseUint s1).1 > 9223372036854775808)) = true then
              (-((9223372036854775808 : Nat) : Int), some NumError.ErrRange)
            else
              (if neg = true then negInt64 (toInt64 (ParseUint s1).1)
                else toInt64 (ParseUint s1).1, none)).2 ≠ none := by
      intro s1 neg h1
      obtain ⟨hne, hr⟩ := ParseUint_not_decimal s1 h1
      cases he : (ParseUint s1).2 with
      | none => exact absurd he hne
      | some e =>
        cases e with
        | ErrSyntax => simp
        | ErrRange =>
          have hv := hr he
          simp only [maxVal64, maxUint64, uint64Size] at hv
          rw [hv]
          cases neg <;> simp
    unfold base10Value at h
    unfold ParseInt
    by_cases hp : c = '+'
    · subst hp
      simp only [if_true, Option.map_eq_none'] at h
      simpa using key rest false h
    · by_cases hm : c = '-'
      · subst hm
        simp only [if_neg hp, if_true, Option.map_eq_none'] at h
        simpa using key rest true h
      · simp only [if_neg hp, if_neg hm, Option.map_eq_none'] at h
        simpa [hp, hm] using key (c :: rest) false h

theorem ParseInt_base10 (s : GoString) (n : Int) (h : base10Value s = some n) :
    ParseInt s =
      if n > 9223372036854775807 then (9223372036854775807, some NumError.ErrRange)
      else if n < -9223372036854775808 then (-9223372036854775808, some NumError.ErrRange)
      else (n, none) := by
  cases s with
  | nil => simp [base10Value] at h
  | cons c rest =>
    have key : ∀ (s1 : GoString) (neg : Bool) (v : Nat), decimalNat? s1 = some v →
        (if (ParseUint s1).2 = some NumError.ErrSyntax then ((0 : Int), (ParseUint s1).2)
          else
            if (!neg && decide ((ParseUint s1).1 ≥ 9223372036854775808)) = true then
              (((9223372036854775808 - 1 : Nat) : Int), some NumError.ErrRange)
            else if (neg && decide ((ParseUint s1).1 > 9223372036854775808)) = true then
              (-((9223372036854775808 : Nat) : Int), some NumError.ErrRange)
            else
              (if neg = true then negInt64 (toInt64 (ParseUint s1).1)
                else toInt64 (ParseUint s1).1, none)) =
          if (if neg = true then -(v : Int) else (v : Int)) > 9223372036854775807 then
            (9223372036854775807, some NumError.ErrRange)
          else if (if neg = true then -(v : Int) else (v : Int)) < -9223372036854775808 then
            (-9223372036854775808, some NumError.ErrRange)
          else ((if neg = true then -(v : Int) else (v : Int)), none) := by
      intro s1 neg v h1
      rw [ParseUint_decimal s1 v h1]
      simp only [maxVal64, maxUint64, uint64Size]
      by_cases hv : v < 18446744073709551616
      · rw [if_pos hv]
        cases neg
        · by_cases hv2 : v ≥ 9223372036854775808
          · have : (v : Int) > 9223372036854775807 := by omega
            simp [hv2, this]
          · have h3 : ¬ ((v : Int) > 9223372036854775807) := by omega
            have h4 : ¬ ((v : Int) < -9223372036854775808) := by omega
            have h5 : v % 18446744073709551616 = v := Nat.mod_eq_of_lt hv
            have h6 : v < 9223372036854775808 := by omega
            simp [hv2, h3, h4, toInt64, uint64Size, h5, h6]
        · by_cases hv2 : v > 9223372036854775808
          · have h3 : ¬ (-(v : Int) > 9223372036854775807) := by omega
            have h4 : (-(v : Int) < -9223372036854775808) := by omega
            simp [hv2, h3, h4]
          · have h3 : ¬ (-(v : Int) > 9223372036854775807) := by omega
            have h4 : ¬ (-(v : Int) < -9223372036854775808) := by omega
            have h5 : v % 18446744073709551616 = v := Nat.mod_eq_of_lt hv
            by_cases h6 : v < 9223372036854775808
            · have h7 : ¬ ((v : Int) = -9223372036854775808) := by omega
              simp [hv2, h3, h4, toInt64, uint64Size, h5, h6, negInt64, h7]
            · have h7 : v = 9223372036854775808 := by omega
              subst h7
              simp [toInt64, uint64Size, negInt64]
      · rw [if_neg hv]
        cases neg
        · have : (v : Int) > 9223372036854775807 := by omega
          simp [this]
        · have h3 : ¬ (-(v : Int) > 9223372036854775807) := by omega
          have h4 : (-(v : Int) < -9223372036854775808) := by omega
          simp [h3, h4]
    unfold base10Value at h
    unfold ParseInt
    by_cases hp : c = '+'
    · subst hp
      simp only [if_true, Option.map_eq_some'] at h
      obtain ⟨v, hv, rfl⟩ := h
      simpa using key rest false v hv
    · by_cases hm : c = '-'
      · subst hm
        simp only [if_neg hp, if_true, Option.map_eq_some'] at h
        obtain ⟨v, hv, rfl⟩ := h
        simpa using key rest true v hv
      · simp only [if_neg hp, if_neg hm, Option.map_eq_some'] at h
        obtain ⟨v, hv, rfl⟩ := h
        simpa [hp, hm] using key (c :: rest) false v hv

end strconv

/-! ## Lemmas on `strings.Split`, `strings.TrimSpace` and the trimming loop -/

namespace strings

theorem Split_ne_nil (s : GoString) : Split s ≠ [] := by
  induction s with
  | nil => simp [Split]
  | cons c cs ih =>
    unfold Split
    split
    · simp
    · split <;> simp

theorem intercalate_cons_head (c : Char) (seg : GoString) (segs : List GoString) :
    [','].intercalate ((c :: seg) :: segs) = c :: [','].intercalate (seg :: segs) := by
  cases segs <;> simp [List.intercalate, List.intersperse]

theorem intercalate_Split (s : GoString) : [','].intercalate (Split s) = s := by
  induction s with
  | nil => simp [Split, List.intercalate, List.intersperse]
  | cons c cs ih =>
    unfold Split
    split
    · rename_i hc
      cases hs : Split cs with
      | nil => exact absurd hs (Split_ne_nil cs)
      | cons seg segs =>
        rw [hs] at ih
        rw [← ih, hc]
        simp [List.intercalate, List.intersperse]
    · cases hs : Split cs with
      | nil => exact absurd hs (Split_ne_nil cs)
      | cons seg segs =>
        rw [hs] at ih
        simp only
        rw [intercalate_cons_head, ih]

theorem Split_no_comma (s : GoString) : ∀ seg ∈ Split s, ',' ∉ seg := by
  induction s with
  | nil => simp [Split]
  | cons c cs ih =>
    unfold Split
    split
    · intro seg hseg
      rcases List.mem_cons.mp hseg with h | h
      · rw [h]; simp
      · exact ih seg h
    · rename_i hc
      cases hs : Split cs with
      | nil => exact absurd hs (Split_ne_nil cs)
      | cons seg0 segs =>
        rw [hs] at ih
        intro seg hseg
        simp only at hseg
        rcases List.mem_cons.mp hseg with h | h
        · rw [h]
          intro hmem
          rcases List.mem_cons.mp hmem with h1 | h1
          · exact hc h1.symm
          · exact ih seg0 (List.mem_cons_self _ _) h1
        · exact ih seg (List.mem_cons_of_mem _ h)

theorem TrimSpace_isTrimOf (s : GoString) : IsTrimOf s (TrimSpace s) := by
  have hsplit : (s.dropWhile unicode.IsSpace).rdropWhile unicode.IsSpace ++
      (s.dropWhile unicode.IsSpace).rtakeWhile unicode.IsSpace = s.dropWhile unicode.IsSpace := by
    simp only [List.rdropWhile, List.rtakeWhile]
    rw [← List.reverse_append, List.takeWhile_append_dropWhile, List.reverse_reverse]
  refine ⟨s.takeWhile unicode.IsSpace, (s.dropWhile unicode.IsSpace).rtakeWhile unicode.IsSpace,
    ?_, ?_, ?_, ?_, ?_⟩
  · unfold TrimSpace
    rw [List.append_assoc, hsplit, List.takeWhile_append_dropWhile]
  · intro c hc
    exact List.mem_takeWhile_imp hc
  · intro c hc
    exact List.mem_rtakeWhile_imp hc
  · intro c hc
    unfold TrimSpace at hc
    have hne : (s.dropWhile unicode.IsSpace).rdropWhile unicode.IsSpace ≠ [] := by
      intro h0; rw [h0] at hc; simp at hc
    have hhead : (s.dropWhile unicode.IsSpace).head? = some c := by
      rw [← hsplit, List.head?_append_of_ne_nil _ hne]
      exact hc
    have := List.head?_dropWhile_not unicode.IsSpace s
    rw [hhead] at this
    exact this
  · intro c hc
    unfold TrimSpace at hc
    have hne : (s.dropWhile unicode.IsSpace).rdropWhile unicode.IsSpace ≠ [] := by
      intro h0; rw [h0] at hc; simp at hc
    have hlast := List.rdropWhile_last_not unicode.IsSpace (s.dropWhile unicode.IsSpace) hne
    rw [List.getLast?_eq_getLast _ hne] at hc
    simp only [Option.some.injEq] at hc
    rw [hc] at hlast
    simpa using hlast

end strings

theorem trimRange_append (pre post : List GoString) :
    trimRange post.length pre.length (pre ++ post) = pre ++ post.map strings.TrimSpace := by
  induction post generalizing pre with
  | nil => simp [trimRange]
  | cons x xs ih =>
    have hget : (pre ++ x :: xs).getD pre.length [] = x := by
      rw [List.getD_eq_getElem?_getD, List.getElem?_append_right (Nat.le_refl _)]
      simp
    have hset : (pre ++ x :: xs).set pre.length (strings.TrimSpace x) =
        (pre ++ [strings.TrimSpace x]) ++ xs := by
      simp [List.set_append]
    have h := ih (pre ++ [strings.TrimSpace x])
    simp only [List.length_append, List.length_singleton] at h
    simp only [List.length_cons, trimRange, hget, hset, h]
    simp

theorem trimRange_eq_map (tagList : List GoString) :
    trimRange tagList.length 0 tagList = tagList.map strings.TrimSpace := by
  simpa using trimRange_append [] tagList

theorem parseDefault_eq (s : GoString) (dflt : Int) :
    (if s ≠ [] then
        (if (strconv.ParseInt s).2 = none ∧ (strconv.ParseInt s).1 > 0
          then (strconv.ParseInt s).1 else dflt)
      else dflt) =
      (match base10Value s with
        | some n => if 0 < n ∧ n ≤ 9223372036854775807 then n else dflt
        | none => dflt) := by
  by_cases hs : s = []
  · subst hs
    simp [base10Value]
  · rw [if_pos hs]
    cases hb : base10Value s with
    | none =>
      have := strconv.ParseInt_not_base10 s hb
      simp [this]
    | some n =>
      rw [strconv.ParseInt_base10 s n hb]
      simp only
      by_cases h1 : n > 9223372036854775807
      · rw [if_pos h1]
        have : ¬ (0 < n ∧ n ≤ 9223372036854775807) := by omega
        simp [this]
      · rw [if_neg h1]
        by_cases h2 : n < -9223372036854775808
        · rw [if_pos h2]
          have : ¬ (0 < n ∧ n ≤ 9223372036854775807) := by omega
          simp [this]
        · rw [if_neg h2]
          by_cases h3 : 0 < n
          · have : (0 < n ∧ n ≤ 9223372036854775807) := by omega
            simp [this, h3]
          · have : ¬ (0 < n ∧ n ≤ 9223372036854775807) := by omega
            simp [this, h3]

theorem parseLimit_le_maxInt64 (s : GoString) :
    parseLimit s ≤ 9223372036854775807 := by
  have h := parseDefault_eq s 10
  unfold parseLimit
  simp only at h ⊢
  rw [h]
  cases base10Value s with
  | none => decide
  | some n =>
    simp only
    split_ifs with h1
    · exact h1.2
    · decide

theorem call_statusCode (rw rw1 : responseWriter) (call : WriterCall)
    (h : rw.call call = some rw1) : rw1.statusCode = rw.statusCode := by
  cases call with
  | WriteHeader statusCode =>
    simp only [responseWriter.call, Option.map_eq_some'] at h
    obtain ⟨w1, _, rfl⟩ := h
    rfl
  | Write v =>
    simp only [responseWriter.call, Option.some.injEq] at h
    subst h
    rfl

theorem serveHTTP_statusCode (next : Handler) (wrapped : responseWriter) :
    (next.ServeHTTP wrapped).1.statusCode = wrapped.statusCode := by
  induction next generalizing wrapped with
  | nil => rfl
  | cons call calls ih =>
    unfold Handler.ServeHTTP
    cases hc : wrapped.call call with
    | none => rfl
    | some wrapped1 =>
      simp only
      rw [ih wrapped1]
      exact call_statusCode wrapped wrapped1 call hc

theorem writeHeader_eq (w : ResponseRecorder) (statusCode : Int) :
    w.WriteHeader statusCode =
      if w.status = none ∧ (statusCode < 100 ∨ statusCode > 999) then none
      else some { w with status := some (w.status.getD statusCode) } := by
  cases w with
  | mk status body =>
    cases status with
    | none =>
      by_cases hc : statusCode < 100 ∨ statusCode > 999
      · simp [ResponseRecorder.WriteHeader, hc]
      · simp [ResponseRecorder.WriteHeader, hc]
    | some c => simp [ResponseRecorder.WriteHeader]

/-! ## The claims -/

/-- C1: for every pair of raw `limit` and `page` values (absent, empty,
non-numeric, zero, negative or out of range), the limit and the page computed by
`GetArticles` are both at least 1. -/
theorem getArticles_limit_page_ge_one (w : ResponseRecorder) (query : Values) :
    1 ≤ (GetArticles w query).limit ∧ 1 ≤ (GetArticles w query).page := by
  simp only [GetArticles, parseLimit, parsePage]
  constructor
  · split_ifs with h1 h2
    · omega
    · decide
    · decide
  · split_ifs with h1 h2
    · omega
    · decide
    · decide

/-- C2: the limit computed by `GetArticles` is `n` when the raw `limit` is a
base-10 representation of an integer `n` with `0 < n ≤ 2^63 - 1`, and the default
10 in every other case; the page is computed in the same way with default 1;
and nothing is written to the response, so no error is produced. -/
theorem getArticles_limit_page_parse (w : ResponseRecorder) (query : Values) :
    (GetArticles w query).limit =
        (match base10Value (query.Get "limit") with
          | some n => if 0 < n ∧ n ≤ 9223372036854775807 then n else 10
          | none => 10) ∧
      (GetArticles w query).page =
        (match base10Value (query.Get "page") with
          | some n => if 0 < n ∧ n ≤ 9223372036854775807 then n else 1
          | none => 1) ∧
      (GetArticles w query).w = w := by
  refine ⟨?_, ?_, rfl⟩
  · exact parseDefault_eq (query.Get "limit") 10
  · exact parseDefault_eq (query.Get "page") 1

/-- C3, as stated, fails: for the raw tags `  a ,b,,c  ` the tag list built by
`GetArticles` is `a`, `b`, the empty string, `c`; the empty segment is not
dropped. -/
theorem getArticles_tagList_keeps_empty :
    (GetArticles ⟨none, []⟩
        (fun k => if k = "tags" then ["  a ,b,,c  ".toList] else [])).tagList
      = some ["a".toList, "b".toList, "".toList, "c".toList] ∧
    (GetArticles ⟨none, []⟩
        (fun k => if k = "tags" then ["  a ,b,,c  ".toList] else [])).tagList
      ≠ some ["a".toList, "b".toList, "c".toList] := by
  decide

/-- C3, amended: for every non-empty raw `tags` string, the tag list built by
`GetArticles` is the list of the comma-separated segments of the string (the
segments hold no comma and joined by commas they give the string back), in
order, each with its surrounding white space trimmed; no segment is dropped. -/
theorem getArticles_tagList_trimmed (w : ResponseRecorder) (query : Values)
    (h : query.Get "tags" ≠ []) :
    ∃ segs ts : List GoString,
      (GetArticles w query).tagList = some ts ∧
      [','].intercalate segs = query.Get "tags" ∧
      (∀ seg ∈ segs, ',' ∉ seg) ∧
      List.Forall₂ IsTrimOf segs ts := by
  refine ⟨strings.Split (query.Get "tags"),
    (strings.Split (query.Get "tags")).map strings.TrimSpace, ?_, ?_, ?_, ?_⟩
  · simp only [GetArticles]
    rw [if_pos h, trimRange_eq_map]
  · exact strings.intercalate_Split _
  · exact strings.Split_no_comma _
  · rw [List.forall₂_map_right_iff, List.forall₂_same]
    intro seg _
    exact strings.TrimSpace_isTrimOf seg

/-- Witness of `getArticles_tagList_trimmed` at the raw tags `  a ,b,,c  `. -/
theorem getArticles_tagList_trimmed_witness :
    Values.Get (fun k => if k = "tags" then ["  a ,b,,c  ".toList] else []) "tags" ≠ [] ∧
    ∃ segs ts : List GoString,
      (GetArticles ⟨none, []⟩
        (fun k => if k = "tags" then ["  a ,b,,c  ".toList] else [])).tagList = some ts ∧
      [','].intercalate segs =
        Values.Get (fun k => if k = "tags" then ["  a ,b,,c  ".toList] else []) "tags" ∧
      (∀ seg ∈ segs, ',' ∉ seg) ∧
      List.Forall₂ IsTrimOf segs ts :=
  ⟨by decide, getArticles_tagList_trimmed ⟨none, []⟩ _ (by decide)⟩

/-- C4: for every request in which `tags` and `author` are both absent or empty,
the filter built by `GetArticles` is the single condition `isPublished == true`,
whatever the values of `limit` and `page`. -/
theorem getArticles_filter_published_only (w : ResponseRecorder) (query : Values)
    (htags : query.Get "tags" = []) (hauthor : query.Get "author" = []) :
    (GetArticles w query).tags = [] ∧ (GetArticles w query).author = [] ∧
      (GetArticles w query).filter = [("isPublished", bson.Value.boolean true)] :=
  ⟨htags, hauthor, rfl⟩

/-- Witness of `getArticles_filter_published_only` at a request with `limit=5`
and `page=2` and neither `tags` nor `author`. -/
theorem getArticles_filter_published_only_witness :
    Values.Get (fun k => if k = "limit" then ["5".toList]
      else if k = "page" then ["2".toList] else []) "tags" = [] ∧
    Values.Get (fun k => if k = "limit" then ["5".toList]
      else if k = "page" then ["2".toList] else []) "author" = [] ∧
    (GetArticles ⟨none, []⟩ (fun k => if k = "limit" then ["5".toList]
      else if k = "page" then ["2".toList] else [])).filter
      = [("isPublished", bson.Value.boolean true)] :=
  ⟨by decide, by decide,
    (getArticles_filter_published_only ⟨none, []⟩ _ (by decide) (by decide)).2.2⟩

/-- C5 at the failing input `tags=go`: `GetArticles` builds the tag list `go`
and leaves it out of the filter, whose only key is `isPublished`; the same holds
for every request. -/
theorem getArticles_filter_ignores_tags :
    (GetArticles ⟨none, []⟩ (fun k => if k = "tags" then ["go".toList] else [])).tagList
      = some ["go".toList] ∧
    (GetArticles ⟨none, []⟩ (fun k => if k = "tags" then ["go".toList] else [])).filter
      = [("isPublished", bson.Value.boolean true)] ∧
    ∀ (w : ResponseRecorder) (query : Values),
      ((GetArticles w query).filter).map Prod.fst = ["isPublished"] :=
  ⟨by decide, rfl, fun _ _ => rfl⟩

/-- C6, as stated, fails: for the raw limit `101` the page size computed by
`GetArticles` is 101, above 100. -/
theorem getArticles_limit_not_clamped :
    ¬ ((GetArticles ⟨none, []⟩ (fun k => if k = "limit" then ["101".toList] else [])).limit
      ≤ 100) := by
  decide

/-- C6, amended: for every raw `limit` string, the page size computed by
`GetArticles` never exceeds `2^63 - 1`, the largest `int64`, and no smaller
maximum is applied: whenever the raw `limit` is a base-10 representation of an
integer `n` with `0 < n ≤ 2^63 - 1`, the page size is `n` itself; so `limit=101`
gives 101 and the largest `int64` is reached. -/
theorem getArticles_limit_unclamped (w : ResponseRecorder) (query : Values) :
    (GetArticles w query).limit ≤ 9223372036854775807 ∧
      (∀ n : Int, base10Value (query.Get "limit") = some n → 0 < n →
        n ≤ 9223372036854775807 → (GetArticles w query).limit = n) ∧
      (GetArticles w (fun k => if k = "limit" then ["101".toList] else [])).limit = 101 ∧
      (GetArticles w
        (fun k => if k = "limit" then ["9223372036854775807".toList] else [])).limit
        = 9223372036854775807 := by
  refine ⟨?_, ?_, ?_, ?_⟩
  · have h := parseLimit_le_maxInt64 (query.Get "limit")
    simpa [GetArticles] using h
  · intro n hn hpos hmax
    have h := parseDefault_eq (query.Get "limit") 10
    simp only [hn, hpos, hmax, and_self, if_true] at h
    simpa [GetArticles, parseLimit] using h
  · show parseLimit (Values.Get (fun k => if k = "limit" then ["101".toList] else []) "limit")
      = 101
    decide
  · show parseLimit
      (Values.Get (fun k => if k = "limit" then ["9223372036854775807".toList] else [])
        "limit") = 9223372036854775807
    decide

/-- Witness of `getArticles_limit_unclamped` at the raw limit `5000`: the page
size is 5000. -/
theorem getArticles_limit_unclamped_witness :
    base10Value (Values.Get (fun k => if k = "limit" then ["5000".toList] else []) "limit")
      = some 5000 ∧
    (GetArticles ⟨none, []⟩ (fun k => if k = "limit" then ["5000".toList] else [])).limit
      = 5000 :=
  ⟨by decide,
    (getArticles_limit_unclamped ⟨none, []⟩
      (fun k => if k = "limit" then ["5000".toList] else [])).2.1 5000
      (by decide) (by decide) (by decide)⟩

/-- C7: for every `totalCount ≥ 0` and `pageSize ≥ 1`, the `PaginationInfo` of
a listing has `totalPages == ceil(totalCount / pageSize)`, which is the least
number of pages of `pageSize` items that hold `totalCount` items, and
`totalPages == 0` if and only if `totalCount == 0`. -/
theorem newPaginationInfo_totalPages (page pageSize totalCount : Int)
    (hcount : 0 ≤ totalCount) (hsize : 1 ≤ pageSize) :
    (NewPaginationInfo page pageSize totalCount).TotalPages
        = ⌈(totalCount : ℚ) / (pageSize : ℚ)⌉ ∧
      totalCount ≤ (NewPaginationInfo page pageSize totalCount).TotalPages * pageSize ∧
      ((NewPaginationInfo page pageSize totalCount).TotalPages - 1) * pageSize < totalCount ∧
      ((NewPaginationInfo page pageSize totalCount).TotalPages = 0 ↔ totalCount = 0) := by
  have hp : (0 : ℚ) < (pageSize : ℚ) := by exact_mod_cast (by omega : (0 : Int) < pageSize)
  have hle : totalCount ≤ ⌈(totalCount : ℚ) / (pageSize : ℚ)⌉ * pageSize := by
    have h1 := Int.le_ceil ((totalCount : ℚ) / (pageSize : ℚ))
    rw [div_le_iff₀ hp] at h1
    exact_mod_cast h1
  have hlt : (⌈(totalCount : ℚ) / (pageSize : ℚ)⌉ - 1) * pageSize < totalCount := by
    have h1 := Int.ceil_lt_add_one ((totalCount : ℚ) / (pageSize : ℚ))
    have h2 : ((⌈(totalCount : ℚ) / (pageSize : ℚ)⌉ : ℚ) - 1) < (totalCount : ℚ) / (pageSize : ℚ) := by
      linarith
    rw [lt_div_iff₀ hp] at h2
    exact_mod_cast h2
  refine ⟨rfl, hle, hlt, ?_⟩
  simp only [NewPaginationInfo]
  constructor
  · intro h0
    rw [h0] at hle
    omega
  · intro h0
    rw [h0] at hle hlt
    have hpos : (0 : Int) < pageSize := by omega
    have h3 : ⌈((0 : Int) : ℚ) / (pageSize : ℚ)⌉ - 1 < 0 := by
      by_contra hcon
      have : 0 ≤ (⌈((0 : Int) : ℚ) / (pageSize : ℚ)⌉ - 1) * pageSize :=
        mul_nonneg (by omega) (by omega)
      omega
    have h4 : 0 ≤ ⌈((0 : Int) : ℚ) / (pageSize : ℚ)⌉ := by
      by_contra hcon
      have : ⌈((0 : Int) : ℚ) / (pageSize : ℚ)⌉ * pageSize < 0 :=
        mul_neg_of_neg_of_pos (by omega) hpos
      omega
    rw [h0]
    omega

/-- Witness of `newPaginationInfo_totalPages` at page 3 of 25 articles in pages
of 10: three pages. -/
theorem newPaginationInfo_totalPages_witness :
    (0 : Int) ≤ 25 ∧ (1 : Int) ≤ 10 ∧
      (NewPaginationInfo 3 10 25).TotalPages = 3 ∧
      ((NewPaginationInfo 3 10 25).TotalPages = 0 ↔ (25 : Int) = 0) := by
  have h := newPaginationInfo_totalPages 3 10 25 (by decide) (by decide)
  refine ⟨by decide, by decide, ?_, h.2.2.2⟩
  have h1 := h.2.1
  have h2 := h.2.2.1
  omega

/-- C8: for every writer, status code, message and data value, whatever
`ErrorResponse` writes is one envelope with exactly the keys `success` (false)
and `error` (the message), so no `data`, `message` or `pagination` key, and
whatever `SuccessResponse` writes is one envelope with exactly the keys `success`
(true), `message` and `data`, and no `error` key; no envelope is both.  Nothing
at all is written when `WriteHeader` panics (no header written yet and a status
code outside 100..999) or, for `SuccessResponse`, when the data does not
marshal. -/
theorem errorResponse_successResponse_envelopes (w : ResponseRecorder) (statusCode : Int)
    (message : GoString) (data : Option JSON) :
    (ErrorResponse w statusCode message).map ResponseRecorder.body =
        (if w.status = none ∧ (statusCode < 100 ∨ statusCode > 999) then none
          else some (w.body ++ [errorEnvelope message])) ∧
      (errorEnvelope message).keys = ["error", "success"] ∧
      (errorEnvelope message).member "success" = some (JSON.bool false) ∧
      (errorEnvelope message).member "error" = some (JSON.str message) ∧
      (errorEnvelope message).member "data" = none ∧
      (errorEnvelope message).member "message" = none ∧
      (errorEnvelope message).member "pagination" = none ∧
      (SuccessResponse w statusCode message data).map ResponseRecorder.body =
        (if w.status = none ∧ (statusCode < 100 ∨ statusCode > 999) then none
          else some (w.body ++ (data.map (successEnvelope message)).toList)) ∧
      (∀ d : JSON,
        (successEnvelope message d).keys = ["data", "message", "success"] ∧
        (successEnvelope message d).member "success" = some (JSON.bool true) ∧
        (successEnvelope message d).member "message" = some (JSON.str message) ∧
        (successEnvelope message d).member "data" = some d ∧
        (successEnvelope message d).member "error" = none ∧
        (successEnvelope message d).member "pagination" = none) ∧
      (∀ (m1 m2 : GoString) (d : JSON), errorEnvelope m1 ≠ successEnvelope m2 d) := by
  refine ⟨?_, rfl, ?_, ?_, ?_, ?_, ?_, ?_, ?_, ?_⟩
  · unfold ErrorResponse
    rw [writeHeader_eq]
    split_ifs
    · rfl
    · simp [ResponseRecorder.Encode, ResponseRecorder.Write]
  · simp [errorEnvelope, JSON.member, List.lookup]
  · simp [errorEnvelope, JSON.member, List.lookup]
  · simp [errorEnvelope, JSON.member, List.lookup]
  · simp [errorEnvelope, JSON.member, List.lookup]
  · simp [errorEnvelope, JSON.member, List.lookup]
  · unfold SuccessResponse
    rw [writeHeader_eq]
    split_ifs
    · rfl
    · cases data <;> simp [ResponseRecorder.Encode, ResponseRecorder.Write]
  · intro d
    refine ⟨rfl, ?_, ?_, ?_, ?_, ?_⟩
    · simp [successEnvelope, JSON.member, List.lookup]
    · simp [successEnvelope, JSON.member, List.lookup]
    · simp [successEnvelope, JSON.member, List.lookup]
    · simp [successEnvelope, JSON.member, List.lookup]
    · simp [successEnvelope, JSON.member, List.lookup]
  · intro m1 m2 d h
    simp [errorEnvelope, successEnvelope] at h

/-- C9: for every request, clock reading and generated identifier,
`NewArticle` returns an article whose title, content, author and tags are those
of the request, whose `IsPublished` is true, and whose `UpdatedAT` is not earlier
than its `CreatedAT`: `CreatedAT`, `UpdatedAT` and `PublishedDate` are the same
instant. -/
theorem newArticle_fields (req : CreateArticleRequest) (now : time.Time)
    (id : primitive.ObjectID) :
    (NewArticle req now id).Title = req.Title ∧
      (NewArticle req now id).Content = req.Content ∧
      (NewArticle req now id).Author = req.Author ∧
      (NewArticle req now id).Tags = req.Tags ∧
      (NewArticle req now id).IsPublished = true ∧
      (NewArticle req now id).UpdatedAT.Before (NewArticle req now id).CreatedAT = false ∧
      (NewArticle req now id).CreatedAT = now ∧
      (NewArticle req now id).UpdatedAT = now ∧
      (NewArticle req now id).PublishedDate = now := by
  refine ⟨rfl, rfl, rfl, rfl, rfl, ?_, rfl, rfl, rfl⟩
  simp [NewArticle, time.Time.Before]

/-- C10 at the failing input, a handler whose only call is `WriteHeader(404)`:
the handler returns without a panic, the client receives status 404 and
`LoggingMiddleware` logs 200; for every handler the logged status is 200, the
value `statusCode` was created with. -/
theorem loggingMiddleware_logs_200 :
    (LoggingMiddleware [WriterCall.WriteHeader 404] ⟨none, []⟩).w.status = some 404 ∧
    (LoggingMiddleware [WriterCall.WriteHeader 404] ⟨none, []⟩).loggedStatus = 200 ∧
    (LoggingMiddleware [WriterCall.WriteHeader 404] ⟨none, []⟩).panicked = false ∧
    ∀ (next : Handler) (w : ResponseRecorder), (LoggingMiddleware next w).loggedStatus = 200 := by
  refine ⟨by decide, by decide, by decide, ?_⟩
  intro next w
  exact serveHTTP_statusCode next _

end GoBlog
